import Mathlib

/-!
Verification of `src/cpp_custom_configuration_provider.ts` from xmake-vscode.

The TypeScript source is shallowly embedded: strings are `String`, JavaScript
arrays are `List`, a JavaScript `Map` is an insertion-ordered association list,
and a computation that can throw returns `JSResult`.  Node's posix `path`
functions (`basename`, `isAbsolute`, `join`, `relative`) are modelled below;
`path.join` normalizes `.` and `..` segments exactly as Node does.
-/

set_option maxRecDepth 100000

namespace XMakeCpp

/-- Result of a JavaScript computation: a value, or a thrown exception. -/
inductive JSResult (α : Type) where
  | ok (value : α)
  | thrown (msg : String)
deriving DecidableEq

def JSResult.bind {α β : Type} : JSResult α → (α → JSResult β) → JSResult β
  | .ok v, f => f v
  | .thrown e, _ => .thrown e

/-! ## JavaScript string primitives -/

/-- JavaScript `s.startsWith(p)`. -/
def jsStartsWith (s p : String) : Bool := p.data.isPrefixOf s.data

/-- JavaScript `s.substring(n)` (ASCII inputs). -/
def jsSubstring (s : String) (n : Nat) : String := String.mk (s.data.drop n)

/-- JavaScript `s.toLowerCase()` (ASCII inputs). -/
def jsToLower (s : String) : String := String.mk (s.data.map Char.toLower)

/-! ## Node posix path model -/

def splitCh (c : Char) : List Char → List (List Char)
  | [] => [[]]
  | x :: xs =>
    let r := splitCh c xs
    if x = c then [] :: r
    else
      match r with
      | [] => [[x]]
      | y :: ys => (x :: y) :: ys

def splitSlash (p : String) : List String :=
  (splitCh '/' p.data).map (fun cs => String.mk cs)

/-- `path.posix.isAbsolute`. -/
def pIsAbsolute (p : String) : Bool := jsStartsWith p "/"

/-- Segment resolution of `path.posix.normalize`: drops empty and `.`
segments and cancels `..` against a preceding segment (or drops it at the
root of an absolute path). -/
def normSegsFold (absFlag : Bool) (segs : List String) : List String :=
  (segs.foldl (fun st seg =>
    if seg = "" ∨ seg = "." then st
    else if seg = ".." then
      match st with
      | [] => if absFlag then [] else [".."]
      | top :: rest => if top = ".." then seg :: st else rest
    else seg :: st) []).reverse

/-- `path.posix.normalize` (trailing-separator preservation omitted; no
caller in this file produces a trailing separator). -/
def pNormalize (p : String) : String :=
  if p = "" then "."
  else
    let absFlag := pIsAbsolute p
    let segs := normSegsFold absFlag (splitSlash p)
    if segs = [] then (if absFlag then "/" else ".")
    else (if absFlag then "/" else "") ++ String.intercalate "/" segs

/-- `path.posix.join` for two segments: join with `/`, then normalize. -/
def pJoin (a b : String) : String :=
  let parts := ([a, b].filter (fun q => q ≠ ""))
  if parts = [] then "." else pNormalize (String.intercalate "/" parts)

/-- `path.posix.basename`: the last nonempty `/`-separated segment. -/
def pBasename (p : String) : String :=
  ((splitSlash p).filter (fun q => q ≠ "")).getLastD ""

def dropCommon : List String → List String → List String × List String
  | x :: xs, y :: ys => if x = y then dropCommon xs ys else (x :: xs, y :: ys)
  | xs, ys => (xs, ys)

/-- `path.posix.relative` for the absolute paths this provider passes to it:
normalize both, strip the common leading segments, go up once per remaining
source segment, then down the remaining target segments. -/
def pRelative (from_ dest : String) : String :=
  let fSegs := (splitSlash (pNormalize from_)).filter (fun q => q ≠ "")
  let tSegs := (splitSlash (pNormalize dest)).filter (fun q => q ≠ "")
  let rests := dropCommon fSegs tSegs
  String.intercalate "/" (rests.1.map (fun _ => "..") ++ rests.2)

/-! ## Duck-typed input records

`updateCompileCommands` receives parsed JSON (`any` in the source), so each
field of an entry carries a runtime type inspected with `typeof`. -/

/-- One element of a JavaScript array: a string, or any non-string value
(the only distinction the source's element-wise operations observe). -/
inductive JItem where
  | str (s : String)
  | other
deriving DecidableEq

inductive JVal where
  | str (s : String)
  | num (n : Int)
  | jbool (b : Bool)
  | null
  | arr (xs : List JItem)
  | undef
deriving DecidableEq

/-- JavaScript `typeof`.  Note `typeof null` is `"object"`, and arrays are
also `"object"`. -/
def typeofJ : JVal → String
  | .str _ => "string"
  | .num _ => "number"
  | .jbool _ => "boolean"
  | .null => "object"
  | .arr _ => "object"
  | .undef => "undefined"

def asStr : JItem → Option String
  | .str s => some s
  | .other => none

/-- Reads a JavaScript value as an array of strings.  `none` marks the inputs
on which the source's string operations (`path.basename(args[1])`,
`arg.startsWith(...)`) would throw a `TypeError`. -/
def getArgs : JVal → Option (List String)
  | .arr xs => xs.mapM asStr
  | _ => none

/-- One element of the `compileCommands` database. -/
structure Cmd where
  directory : JVal
  file : JVal
  arguments : JVal
deriving DecidableEq

/-! ## Argument classifier (source lines 6–100) -/

/-- `isMSVC`: lowercased base name of `args[1]` equals `"cl"`.  On an
argument vector shorter than two the source throws; total callers below
guard the length, and the `getD ""` default is never reached there. -/
def isMSVC (args : List String) : Bool :=
  jsToLower (pBasename (args.getD 1 "")) = "cl"

def findIncludePaths (dir : String) (args : List String) : List String :=
  let includeOptionStart := if isMSVC args then "/I" else "-I"
  (args.filter (fun arg => jsStartsWith arg includeOptionStart)).map (fun inc =>
    let includePath := jsSubstring inc 2
    if pIsAbsolute includePath then includePath else pJoin dir includePath)

def findDefines (args : List String) : List String :=
  let defineOptionStart := if isMSVC args then "/D" else "-D"
  (args.filter (fun arg => jsStartsWith arg defineOptionStart)).map
    (fun def_ => jsSubstring def_ 2)

def findCompilerPath (args : List String) : String := args.getD 1 ""

def findCompiler (args : List String) : String :=
  jsToLower (pBasename (args.getD 1 ""))

def findCompilerArgs (args : List String) : List String :=
  let optionStart := if isMSVC args then "/" else "-"
  args.filter (fun arg => jsStartsWith arg optionStart &&
                            !(jsStartsWith arg (optionStart ++ "I")) &&
                            !(jsStartsWith arg (optionStart ++ "D")) &&
                            !(jsStartsWith arg (optionStart ++ "o")) &&
                            !(jsStartsWith arg (optionStart ++ "std")))

/-- The 20-case `switch` in `findStandard`: each recognized token maps to
itself, everything else to `"c++20"`. -/
def resolveStd (std : String) : String :=
  if std = "c89" then "c89"
  else if std = "c99" then "c99"
  else if std = "c11" then "c11"
  else if std = "c17" then "c17"
  else if std = "c++98" then "c++98"
  else if std = "c++03" then "c++03"
  else if std = "c++11" then "c++11"
  else if std = "c++14" then "c++14"
  else if std = "c++17" then "c++17"
  else if std = "c++20" then "c++20"
  else if std = "gnu89" then "gnu89"
  else if std = "gnu99" then "gnu99"
  else if std = "gnu11" then "gnu11"
  else if std = "gnu17" then "gnu17"
  else if std = "gnu++98" then "gnu++98"
  else if std = "gnu++03" then "gnu++03"
  else if std = "gnu++11" then "gnu++11"
  else if std = "gnu++14" then "gnu++14"
  else if std = "gnu++17" then "gnu++17"
  else if std = "gnu++20" then "gnu++20"
  else "c++20"

/-- The `"-std="` / `"/std:"` marker selected by flavor (both 5 characters). -/
def standardMarker (args : List String) : String :=
  if isMSVC args then "/std:" else "-std="

def findStandard (args : List String) : String :=
  match args.find? (fun arg => jsStartsWith arg (standardMarker args)) with
  | some stdArg => resolveStd (jsSubstring stdArg 5)
  | none => "c++20"

/-- The 12-case `switch` in `findIntelliSenseMode` over the concatenated
`compiler ++ "-" ++ arch` key; any other key falls to the default arm. -/
def lookupMode (comp_arch : String) : String :=
  if comp_arch = "msvc-x86" then "msvc-x86"
  else if comp_arch = "msvc-x64" then "msvc-x64"
  else if comp_arch = "msvc-arm" then "msvc-arm"
  else if comp_arch = "msvc-arm64" then "msvc-arm64"
  else if comp_arch = "gcc-x86" then "gcc-x86"
  else if comp_arch = "gcc-x64" then "gcc-x64"
  else if comp_arch = "gcc-arm" then "gcc-arm"
  else if comp_arch = "gcc-arm64" then "gcc-arm64"
  else if comp_arch = "clang-x86" then "clang-x86"
  else if comp_arch = "clang-x64" then "clang-x64"
  else if comp_arch = "clang-arm" then "clang-arm"
  else if comp_arch = "clang-arm64" then "clang-arm64"
  else "msvc-x86"

def intelliSenseTable : List String :=
  ["msvc-x86", "msvc-x64", "msvc-arm", "msvc-arm64",
   "gcc-x86", "gcc-x64", "gcc-arm", "gcc-arm64",
   "clang-x86", "clang-x64", "clang-arm", "clang-arm64"]

def findIntelliSenseMode (args : List String) (platform architecture : String) :
    String :=
  let intelliArch := if architecture = "x86" then "x86" else "x64"
  lookupMode (findCompiler args ++ "-" ++ intelliArch)

/-- `pushIfNotExist(to, from)`: appends each incoming element not already
present in the destination (`to` is a reserved word here, hence `dst`). -/
def pushIfNotExist (dst from_ : List String) : List String :=
  from_.foldl (fun acc incoming => if incoming ∈ acc then acc else acc ++ [incoming]) dst

/-! ## The provider state (class fields) -/

structure SourceFileConfiguration where
  includePath : List String
  defines : List String
  compilerPath : String
  compilerArgs : List String
  standard : String
  intelliSenseMode : String
deriving DecidableEq

structure SourceFileConfigurationItem where
  uri : String
  configuration : SourceFileConfiguration
deriving DecidableEq

/-- JavaScript `Map` as an insertion-ordered association list. -/
def keysOf {α : Type} (m : List (String × α)) : List String := m.map Prod.fst

/-- `Map.set`: overwrite in place when the key is present, append otherwise. -/
def mapSet {α : Type} (m : List (String × α)) (k : String) (v : α) :
    List (String × α) :=
  if k ∈ keysOf m then m.map (fun p => if p.1 = k then (p.1, v) else p)
  else m ++ [(k, v)]

/-- `Map.get` followed by mutating the retrieved array in place. -/
def mapUpdate {α : Type} (m : List (String × α)) (k : String) (g : α → α) :
    List (String × α) :=
  m.map (fun p => if p.1 = k then (p.1, g p.2) else p)

/-- `Map.get`. -/
def mapFind {α : Type} (m : List (String × α)) (k : String) : Option α :=
  (m.find? (fun p => p.1 = k)).map Prod.snd

def mapHasKey {α : Type} (m : List (String × α)) (k : String) : Bool :=
  (m.find? (fun p => p.1 = k)).isSome

structure ProviderState where
  sourceFileConfigurations : List (String × SourceFileConfigurationItem)
  workspaceBrowsePaths : List (String × List String)
  workspaceCompilerArgs : List (String × List String)
  workspaceCompiler : List (String × String)
  workspaceStandard : List (String × String)
deriving DecidableEq

/-- The constructor: empty per-file map; an empty aggregate per workspace
folder in the browse-path and compiler-arg maps; the compiler and standard
maps start with no keys at all. -/
def newProvider (folders : List String) : ProviderState :=
  { sourceFileConfigurations := []
    workspaceBrowsePaths := folders.foldl (fun m f => mapSet m f []) []
    workspaceCompilerArgs := folders.foldl (fun m f => mapSet m f []) []
    workspaceCompiler := []
    workspaceStandard := [] }

/-! ## updateCompileCommands (source lines 237–288) -/

/-- `Uri.file(...).fsPath` of a database entry: the file itself when
absolute, otherwise joined onto the entry's directory. -/
def cmdUri (dir file_ : String) : String :=
  if pIsAbsolute file_ then file_ else pJoin dir file_

/-- The folder-attribution test of source lines 274–275: the relative path
from the source file to the folder starts with `..` or `.`. -/
def attributed (uriPath folder : String) : Bool :=
  jsStartsWith (pRelative uriPath folder) ".." || jsStartsWith (pRelative uriPath folder) "."

/-- The body of the `forEach` over workspace folders for one valid entry
(source lines 273–282). -/
def folderStep (uriPath : String) (includePaths compilerArgs : List String)
    (compilerPath standard : String) (st : ProviderState) (folder : String) :
    ProviderState :=
  if attributed uriPath folder then
    { st with
      workspaceBrowsePaths :=
        mapUpdate st.workspaceBrowsePaths folder (fun l => pushIfNotExist l includePaths)
      workspaceCompilerArgs :=
        mapUpdate st.workspaceCompilerArgs folder (fun l => pushIfNotExist l compilerArgs)
      workspaceCompiler := mapSet st.workspaceCompiler folder compilerPath
      workspaceStandard := mapSet st.workspaceStandard folder standard }
  else st

/-- The `srcConfig` record built for one valid entry (source lines 257–267). -/
def itemOf (platform architecture dir file_ : String) (args : List String) :
    SourceFileConfigurationItem :=
  { uri := cmdUri dir file_
    configuration :=
      { includePath := findIncludePaths dir args
        defines := findDefines args
        compilerPath := findCompilerPath args
        compilerArgs := findCompilerArgs args
        standard := findStandard args
        intelliSenseMode := findIntelliSenseMode args platform architecture } }

/-- Processing of one valid entry (source lines 249–282). -/
def applyCmd (folders : List String) (platform architecture dir file_ : String)
    (args : List String) (s : ProviderState) : ProviderState :=
  let uriPath := cmdUri dir file_
  let s1 := { s with
    sourceFileConfigurations :=
      mapSet s.sourceFileConfigurations uriPath (itemOf platform architecture dir file_ args) }
  folders.foldl
    (folderStep uriPath (findIncludePaths dir args) (findCompilerArgs args)
      (findCompilerPath args) (findStandard args)) s1

/-- One iteration of the `forEach` over `compileCommands`: the `typeof`
validation admits any `"object"`-typed `arguments` (including `null` and
arrays with non-string or fewer than two elements), on which the subsequent
string operations throw. -/
def processCmd (folders : List String) (platform architecture : String)
    (s : ProviderState) (cmd : Cmd) : JSResult ProviderState :=
  if typeofJ cmd.directory = "string" ∧ typeofJ cmd.file = "string" ∧
      typeofJ cmd.arguments = "object" then
    match cmd.directory, cmd.file, getArgs cmd.arguments with
    | .str dir, .str file_, some args =>
      if 2 ≤ args.length then
        .ok (applyCmd folders platform architecture dir file_ args s)
      else .thrown "TypeError"
    | _, _, _ => .thrown "TypeError"
  else .ok s

def runCommands (folders : List String) (platform architecture : String) :
    List Cmd → ProviderState → JSResult ProviderState
  | [], s => .ok s
  | c :: rest, s =>
    match processCmd folders platform architecture s c with
    | .ok s1 => runCommands folders platform architecture rest s1
    | .thrown e => .thrown e

/-- `updateCompileCommands`: `this._sourceFileConfigurations.clear()` empties
the per-file map, but the four `forEach` calls on source lines 240–243 only
reassign the callback parameter (`paths = []`, `args = []`, ...), which does
not modify the maps; the aggregates therefore keep their previous content. -/
def updateCompileCommands (folders : List String) (platform architecture : String)
    (compileCommands : List Cmd) (s : ProviderState) : JSResult ProviderState :=
  runCommands folders platform architecture compileCommands
    { s with sourceFileConfigurations := [] }

/-! ## provideConfigurations (source lines 158–166) -/

def defaultItem : SourceFileConfigurationItem :=
  { uri := ""
    configuration :=
      { includePath := [], defines := [], compilerPath := "", compilerArgs := []
        standard := "", intelliSenseMode := "" } }

/-- `provideConfigurations`: `let items` is declared without an initializer,
so `items` is `undefined` (`none`); `items.push(...)` on `undefined` throws a
`TypeError`, and if no requested path is in the index the method resolves
with `undefined` rather than a list. -/
def provideConfigurations (s : ProviderState) (uris : List String) :
    JSResult (Option (List SourceFileConfigurationItem)) :=
  let step := fun (items : JSResult (Option (List SourceFileConfigurationItem)))
      (u : String) =>
    items.bind (fun it =>
      if mapHasKey s.sourceFileConfigurations u then
        match it with
        | none => .thrown "TypeError: items is undefined"
        | some l =>
          .ok (some (l ++ [(mapFind s.sourceFileConfigurations u).getD defaultItem]))
      else .ok it)
  uris.foldl step (.ok none)

/-! ## Classification of database entries

`processCmd` has three disjoint outcomes: an entry failing the `typeof`
validation is skipped, a well-formed entry is applied, anything else throws. -/

def skippedCmd (c : Cmd) : Bool :=
  !(decide (typeofJ c.directory = "string" ∧ typeofJ c.file = "string" ∧
      typeofJ c.arguments = "object"))

def validCmd (c : Cmd) : Bool :=
  match c.directory, c.file, getArgs c.arguments with
  | .str _, .str _, some args => 2 ≤ args.length
  | _, _, _ => false

def cmdDir (c : Cmd) : String :=
  match c.directory with
  | .str s => s
  | _ => ""

def cmdFile (c : Cmd) : String :=
  match c.file with
  | .str s => s
  | _ => ""

def cmdArgs (c : Cmd) : List String := (getArgs c.arguments).getD []

/-- The state transformer of one `forEach` iteration on an entry that does
not throw. -/
def pureStep (folders : List String) (platform architecture : String)
    (s : ProviderState) (c : Cmd) : ProviderState :=
  if validCmd c then
    applyCmd folders platform architecture (cmdDir c) (cmdFile c) (cmdArgs c) s
  else s

def pureRun (folders : List String) (platform architecture : String) :
    List Cmd → ProviderState → ProviderState
  | [], s => s
  | c :: rest, s =>
    pureRun folders platform architecture rest (pureStep folders platform architecture s c)

/-! ## Association-list fold combinators

These describe how a run of `updateCompileCommands` acts on each map
component of the state, as a fold of independent per-key operations. -/

def valsFor {α : Type} (ops : List (String × α)) (k : String) : List α :=
  (ops.filter (fun p => p.1 = k)).map Prod.snd

def foldPush (dst : List String) (vss : List (List String)) : List String :=
  vss.foldl pushIfNotExist dst

def foldUpd : List (String × List String) → List (String × List String) →
    List (String × List String)
  | m, [] => m
  | m, kv :: rest => foldUpd (mapUpdate m kv.1 (fun l => pushIfNotExist l kv.2)) rest

def foldSet {α : Type} : List (String × α) → List (String × α) → List (String × α)
  | m, [] => m
  | m, kv :: rest => foldSet (mapSet m kv.1 kv.2) rest

/-- The per-folder operations one valid entry contributes: one `(folder, v)`
pair for each attributed workspace folder. -/
def cmdOps {α : Type} (folders : List String) (u : String) (v : α) :
    List (String × α) :=
  (folders.filter (fun f => attributed u f)).map (fun f => (f, v))

def dbOps {α : Type} (perCmd : Cmd → List (String × α)) : List Cmd → List (String × α)
  | [] => []
  | c :: rest => (if validCmd c then perCmd c else []) ++ dbOps perCmd rest

def cmdUriOf (c : Cmd) : String := cmdUri (cmdDir c) (cmdFile c)

def srcOpsOf (platform architecture : String) : List Cmd →
    List (String × SourceFileConfigurationItem) :=
  dbOps (fun c =>
    [(cmdUriOf c, itemOf platform architecture (cmdDir c) (cmdFile c) (cmdArgs c))])

def browseOpsOf (folders : List String) : List Cmd → List (String × List String) :=
  dbOps (fun c => cmdOps folders (cmdUriOf c) (findIncludePaths (cmdDir c) (cmdArgs c)))

def cargOpsOf (folders : List String) : List Cmd → List (String × List String) :=
  dbOps (fun c => cmdOps folders (cmdUriOf c) (findCompilerArgs (cmdArgs c)))

def compOpsOf (folders : List String) : List Cmd → List (String × String) :=
  dbOps (fun c => cmdOps folders (cmdUriOf c) (findCompilerPath (cmdArgs c)))

def stdOpsOf (folders : List String) : List Cmd → List (String × String) :=
  dbOps (fun c => cmdOps folders (cmdUriOf c) (findStandard (cmdArgs c)))

/-- A database none of whose entries would make the `forEach` body throw:
each entry is either skipped by validation or fully processed. -/
def goodDb (db : List Cmd) : Prop :=
  ∀ c ∈ db, skippedCmd c = true ∨ validCmd c = true

/-! ## Specification-side definitions and sample data -/

/-- The closed 20-token set of recognized standard identifiers, in the order
of the source's `switch` cases. -/
def recognizedStandards : List String :=
  ["c89", "c99", "c11", "c17", "c++98", "c++03", "c++11", "c++14", "c++17",
   "c++20", "gnu89", "gnu99", "gnu11", "gnu17", "gnu++98", "gnu++03",
   "gnu++11", "gnu++14", "gnu++17", "gnu++20"]

/-- The flag marker of the entry's flavor: `/` for MSVC, `-` otherwise. -/
def flavorMarker (args : List String) : String := if isMSVC args then "/" else "-"

/-- The spec's wording of the pass-through filter: keeps an argument exactly
when it starts with the flavor marker but not with marker+`I`, marker+`D`,
marker+`o` or marker+`std` (a plain prefix test). -/
def specPassThroughKeep (marker a : String) : Bool :=
  jsStartsWith a marker && !(jsStartsWith a (marker ++ "I")) &&
    !(jsStartsWith a (marker ++ "D")) && !(jsStartsWith a (marker ++ "o")) &&
    !(jsStartsWith a (marker ++ "std"))

/-- The spec's wording of include-path extraction: every argument starting
with marker+`I` contributes its substring from index 2, resolved against the
entry's directory via `path.join` when not absolute; order preserved, no
deduplication. -/
def specIncludePathsOf (dir : String) (args : List String) : List String :=
  (args.filter (fun a => jsStartsWith a (flavorMarker args ++ "I"))).map (fun a =>
    if pIsAbsolute (jsSubstring a 2) then jsSubstring a 2
    else pJoin dir (jsSubstring a 2))

/-- The deduplication invariant on the per-folder aggregates. -/
def aggregatesNodup (s : ProviderState) : Prop :=
  (∀ p ∈ s.workspaceBrowsePaths, p.2.Nodup) ∧
  (∀ p ∈ s.workspaceCompilerArgs, p.2.Nodup)

/-- A sample one-entry database over the workspace folder `/w`. -/
def wDb : List Cmd :=
  [{ directory := .str "/w"
     file := .str "/w/a.cpp"
     arguments := .arr [.str "sh", .str "/usr/bin/gcc", .str "-I/inc", .str "-DX",
       .str "-std=c11", .str "-O2"] }]

/-- The provider state reached by rebuilding from `wDb` on a fresh provider
over the folder `/w`. -/
def wState : ProviderState :=
  { sourceFileConfigurations :=
      [("/w/a.cpp",
        { uri := "/w/a.cpp"
          configuration :=
            { includePath := ["/inc"], defines := ["X"], compilerPath := "/usr/bin/gcc"
              compilerArgs := ["-O2"], standard := "c11", intelliSenseMode := "gcc-x64" } })]
    workspaceBrowsePaths := [("/w", ["/inc"])]
    workspaceCompilerArgs := [("/w", ["-O2"])]
    workspaceCompiler := [("/w", "/usr/bin/gcc")]
    workspaceStandard := [("/w", "c11")] }

/-- The scenario entry of the spec's §8: directory `/p`, file `/p/a.cpp`,
Unix-flavored arguments. -/
def scenarioEntry : Cmd :=
  { directory := .str "/p"
    file := .str "/p/a.cpp"
    arguments := .arr [.str "sh", .str "/usr/bin/g++", .str "-I../inc", .str "-DFOO",
      .str "-std=c++17", .str "-Wall"] }

/-! ## Lemmas about pushIfNotExist -/

theorem pushIfNotExist_nil (dst : List String) : pushIfNotExist dst [] = dst := rfl

theorem pushIfNotExist_cons (dst : List String) (v : String) (vs : List String) :
    pushIfNotExist dst (v :: vs) =
      pushIfNotExist (if v ∈ dst then dst else dst ++ [v]) vs := rfl

theorem mem_pushIfNotExist_left {a : String} {dst : List String} (vs : List String)
    (h : a ∈ dst) : a ∈ pushIfNotExist dst vs := by
  induction vs generalizing dst with
  | nil => exact h
  | cons v vs ih =>
    rw [pushIfNotExist_cons]
    split
    · exact ih h
    · exact ih (List.mem_append_left _ h)

theorem mem_pushIfNotExist_right {a : String} {vs : List String} (dst : List String)
    (h : a ∈ vs) : a ∈ pushIfNotExist dst vs := by
  induction vs generalizing dst with
  | nil => cases h
  | cons v vs ih =>
    rw [pushIfNotExist_cons]
    rcases List.mem_cons.mp h with rfl | hv
    · split
      · exact mem_pushIfNotExist_left vs (by assumption)
      · exact mem_pushIfNotExist_left vs (List.mem_append_right _ (List.mem_singleton.mpr rfl))
    · exact ih _ hv

theorem pushIfNotExist_eq_self {dst vs : List String} (h : ∀ a ∈ vs, a ∈ dst) :
    pushIfNotExist dst vs = dst := by
  induction vs generalizing dst with
  | nil => rfl
  | cons v vs ih =>
    rw [pushIfNotExist_cons, if_pos (h v (List.mem_cons_self v vs))]
    exact ih (fun a ha => h a (List.mem_cons_of_mem v ha))

theorem pushIfNotExist_nodup {dst : List String} (vs : List String)
    (h : dst.Nodup) : (pushIfNotExist dst vs).Nodup := by
  induction vs generalizing dst with
  | nil => exact h
  | cons v vs ih =>
    rw [pushIfNotExist_cons]
    split
    · exact ih h
    · refine ih ?_
      rw [List.nodup_append]
      exact ⟨h, List.nodup_singleton v,
        fun a ha hb => (by assumption : ¬v ∈ dst) (by
          rw [List.mem_singleton] at hb
          exact hb ▸ ha)⟩

theorem pushIfNotExist_append_form (dst vs : List String) :
    ∃ t, pushIfNotExist dst vs = dst ++ t ∧ ∀ a ∈ t, a ∉ dst := by
  induction vs generalizing dst with
  | nil => exact ⟨[], by simp [pushIfNotExist_nil]⟩
  | cons v vs ih =>
    rw [pushIfNotExist_cons]
    by_cases hv : v ∈ dst
    · rw [if_pos hv]; exact ih dst
    · rw [if_neg hv]
      obtain ⟨t, ht, hnot⟩ := ih (dst ++ [v])
      refine ⟨v :: t, ?_, ?_⟩
      · rw [ht, List.append_assoc]; rfl
      · intro a ha
        rcases List.mem_cons.mp ha with rfl | ha
        · exact hv
        · exact fun had => hnot a ha (List.mem_append_left _ had)

/-! ## Lemmas about foldPush -/

theorem foldPush_nil (dst : List String) : foldPush dst [] = dst := rfl

theorem foldPush_cons (dst vs : List String) (vss : List (List String)) :
    foldPush dst (vs :: vss) = foldPush (pushIfNotExist dst vs) vss := rfl

theorem mem_foldPush_left {a : String} {dst : List String} (vss : List (List String))
    (h : a ∈ dst) : a ∈ foldPush dst vss := by
  induction vss generalizing dst with
  | nil => exact h
  | cons vs vss ih => exact ih (mem_pushIfNotExist_left vs h)

theorem mem_foldPush_of_mem {a : String} {vs : List String} {vss : List (List String)}
    (dst : List String) (hvs : vs ∈ vss) (ha : a ∈ vs) : a ∈ foldPush dst vss := by
  induction vss generalizing dst with
  | nil => cases hvs
  | cons ws vss ih =>
    rcases List.mem_cons.mp hvs with rfl | hvs
    · exact mem_foldPush_left vss (mem_pushIfNotExist_right dst ha)
    · exact ih _ hvs

theorem foldPush_eq_self {dst : List String} {vss : List (List String)}
    (h : ∀ vs ∈ vss, ∀ a ∈ vs, a ∈ dst) : foldPush dst vss = dst := by
  induction vss with
  | nil => rfl
  | cons vs vss ih =>
    rw [foldPush_cons, pushIfNotExist_eq_self (h vs (List.mem_cons_self vs vss))]
    exact ih (fun ws hws a ha => h ws (List.mem_cons_of_mem vs hws) a ha)

theorem foldPush_idem (dst : List String) (vss : List (List String)) :
    foldPush (foldPush dst vss) vss = foldPush dst vss :=
  foldPush_eq_self (fun vs hvs a ha => mem_foldPush_of_mem dst hvs ha)

/-! ## Lemmas about mapUpdate, mapSet and their folds -/

theorem foldUpd_nil (m : List (String × List String)) : foldUpd m [] = m := rfl

theorem foldUpd_cons (m : List (String × List String)) (kv : String × List String)
    (ops : List (String × List String)) :
    foldUpd m (kv :: ops) = foldUpd (mapUpdate m kv.1 (fun l => pushIfNotExist l kv.2)) ops :=
  rfl

theorem valsFor_nil {α : Type} (k : String) : valsFor ([] : List (String × α)) k = [] := rfl

theorem valsFor_cons {α : Type} (kv : String × α) (ops : List (String × α)) (k : String) :
    valsFor (kv :: ops) k = if kv.1 = k then kv.2 :: valsFor ops k else valsFor ops k := by
  unfold valsFor
  rw [List.filter_cons]
  split
  · next h => rw [if_pos (by simpa using h)]; rfl
  · next h => rw [if_neg (by simpa using h)]

/-- A fold of `mapUpdate`s acts pointwise: each pair receives, in order, the
pushes whose key matches it. -/
theorem foldUpd_eq_map (m ops : List (String × List String)) :
    foldUpd m ops = m.map (fun p => (p.1, foldPush p.2 (valsFor ops p.1))) := by
  induction ops generalizing m with
  | nil => simp [foldUpd_nil, valsFor_nil, foldPush_nil]
  | cons kv ops ih =>
    rw [foldUpd_cons, ih]
    unfold mapUpdate
    rw [List.map_map]
    refine List.map_congr_left (fun p _ => ?_)
    simp only [Function.comp]
    by_cases h : p.1 = kv.1
    · rw [if_pos h, valsFor_cons, if_pos h.symm, foldPush_cons]
    · rw [if_neg h, valsFor_cons, if_neg (fun hs => h hs.symm)]

theorem foldUpd_idem (m ops : List (String × List String)) :
    foldUpd (foldUpd m ops) ops = foldUpd m ops := by
  rw [foldUpd_eq_map m ops, foldUpd_eq_map, List.map_map]
  refine List.map_congr_left (fun p _ => ?_)
  simp only [Function.comp, foldPush_idem]

theorem foldSet_nil {α : Type} (m : List (String × α)) : foldSet m [] = m := rfl

theorem foldSet_cons {α : Type} (m : List (String × α)) (kv : String × α)
    (ops : List (String × α)) :
    foldSet m (kv :: ops) = foldSet (mapSet m kv.1 kv.2) ops := rfl

theorem keysOf_mapSet_of_mem {α : Type} {m : List (String × α)} {k : String}
    (v : α) (h : k ∈ keysOf m) : keysOf (mapSet m k v) = keysOf m := by
  unfold mapSet
  rw [if_pos h]
  unfold keysOf
  rw [List.map_map]
  refine List.map_congr_left (fun p _ => ?_)
  by_cases hp : p.1 = k
  · simp [Function.comp, hp]
  · simp [Function.comp, hp]

theorem mem_keysOf_mapSet {α : Type} {k' : String} {m : List (String × α)}
    (k : String) (v : α) (h : k' ∈ keysOf m) : k' ∈ keysOf (mapSet m k v) := by
  by_cases hk : k ∈ keysOf m
  · rw [keysOf_mapSet_of_mem v hk]; exact h
  · unfold mapSet
    rw [if_neg hk]
    unfold keysOf
    rw [List.map_append]
    exact List.mem_append_left _ h

theorem self_mem_keysOf_mapSet {α : Type} (m : List (String × α)) (k : String) (v : α) :
    k ∈ keysOf (mapSet m k v) := by
  by_cases h : k ∈ keysOf m
  · rw [keysOf_mapSet_of_mem v h]; exact h
  · unfold mapSet
    rw [if_neg h]
    unfold keysOf
    rw [List.map_append]
    exact List.mem_append_right _ (by simp)

theorem mem_keysOf_foldSet {α : Type} {k' : String} {m ops : List (String × α)}
    (h : k' ∈ keysOf m) : k' ∈ keysOf (foldSet m ops) := by
  induction ops generalizing m with
  | nil => exact h
  | cons kv ops ih => exact ih (mem_keysOf_mapSet kv.1 kv.2 h)

theorem opKey_mem_keysOf_foldSet {α : Type} {q : String × α} {ops : List (String × α)}
    (m : List (String × α)) (h : q ∈ ops) : q.1 ∈ keysOf (foldSet m ops) := by
  induction ops generalizing m with
  | nil => cases h
  | cons kv ops ih =>
    rw [foldSet_cons]
    rcases List.mem_cons.mp h with rfl | h
    · exact mem_keysOf_foldSet (self_mem_keysOf_mapSet m q.1 q.2)
    · exact ih _ h

theorem mem_mapSet_self_eq {α : Type} {m : List (String × α)} {k : String} {v v0 : α}
    (h : (k, v) ∈ mapSet m k v0) : v = v0 := by
  unfold mapSet at h
  split at h
  · obtain ⟨q, hq, hqe⟩ := List.mem_map.mp h
    by_cases hk : q.1 = k
    · rw [if_pos hk] at hqe
      exact (Prod.mk.injEq _ _ _ _ ▸ hqe).2.symm
    · rw [if_neg hk] at hqe
      exact absurd (congrArg Prod.fst hqe) hk
  · next hk =>
    rcases List.mem_append.mp h with hm | hone
    · exact absurd (List.mem_map.mpr ⟨(k, v), hm, rfl⟩) hk
    · simpa using hone

theorem mem_mapSet_ne_iff {α : Type} {m : List (String × α)} {k k0 : String} {v : α}
    (v0 : α) (hne : k ≠ k0) : (k, v) ∈ mapSet m k0 v0 ↔ (k, v) ∈ m := by
  unfold mapSet
  split
  · constructor
    · intro h
      obtain ⟨q, hq, hqe⟩ := List.mem_map.mp h
      by_cases hk : q.1 = k0
      · rw [if_pos hk] at hqe
        exact absurd (congrArg Prod.fst hqe) (by simpa [hk] using fun he => hne he.symm)
      · rw [if_neg hk] at hqe
        exact hqe ▸ hq
    · intro h
      exact List.mem_map.mpr ⟨(k, v), h, by rw [if_neg (by simpa using hne)]⟩
  · constructor
    · intro h
      rcases List.mem_append.mp h with hm | hone
      · exact hm
      · exact absurd (by simpa using hone : k = k0 ∧ v = v0).1 hne
    · exact fun h => List.mem_append_left _ h

theorem mem_foldSet_untouched {α : Type} {k : String} {v : α} {ops : List (String × α)}
    (m : List (String × α)) (hops : valsFor ops k = []) :
    ((k, v) ∈ foldSet m ops ↔ (k, v) ∈ m) := by
  induction ops generalizing m with
  | nil => exact Iff.rfl
  | cons kv ops ih =>
    rw [valsFor_cons] at hops
    by_cases hk : kv.1 = k
    · rw [if_pos hk] at hops; cases hops
    · rw [if_neg hk] at hops
      rw [foldSet_cons]
      exact (ih _ hops).trans (mem_mapSet_ne_iff kv.2 (fun he => hk he.symm))

/-- Every pair present after a fold of `mapSet`s whose key was written holds
the last written value for that key. -/
theorem mem_foldSet_lastVal {α : Type} {k : String} {v : α} {ops : List (String × α)}
    (m : List (String × α)) (h : (k, v) ∈ foldSet m ops) :
    valsFor ops k = [] ∨ ∀ d, (valsFor ops k).getLastD d = v := by
  induction ops generalizing m with
  | nil => exact Or.inl rfl
  | cons kv ops ih =>
    rw [foldSet_cons] at h
    rcases ih _ h with hnil | hlast
    · by_cases hk : kv.1 = k
      · refine Or.inr (fun d => ?_)
        rw [valsFor_cons, if_pos hk, List.getLastD_cons, hnil]
        have hmem : (k, v) ∈ mapSet m kv.1 kv.2 := (mem_foldSet_untouched _ hnil).mp h
        rw [hk] at hmem
        exact (mem_mapSet_self_eq hmem).symm.trans rfl ▸ (mem_mapSet_self_eq hmem).symm
      · rw [valsFor_cons, if_neg hk]
        exact Or.inl hnil
    · by_cases hk : kv.1 = k
      · refine Or.inr (fun d => ?_)
        rw [valsFor_cons, if_pos hk, List.getLastD_cons]
        exact hlast kv.2
      · rw [valsFor_cons, if_neg hk]
        exact Or.inr hlast

/-- When every written key is already present, a fold of `mapSet`s acts
pointwise, each pair ending at the last value written for its key. -/
theorem foldSet_eq_map {α : Type} (m ops : List (String × α))
    (H : ∀ q ∈ ops, q.1 ∈ keysOf m) :
    foldSet m ops = m.map (fun p => (p.1, (valsFor ops p.1).getLastD p.2)) := by
  induction ops generalizing m with
  | nil => simp [foldSet_nil, valsFor_nil]
  | cons kv ops ih =>
    rw [foldSet_cons]
    have hk : kv.1 ∈ keysOf m := H kv (List.mem_cons_self kv ops)
    have hkeys : keysOf (mapSet m kv.1 kv.2) = keysOf m := keysOf_mapSet_of_mem kv.2 hk
    rw [ih (mapSet m kv.1 kv.2)
      (fun q hq => hkeys ▸ H q (List.mem_cons_of_mem kv hq))]
    unfold mapSet
    rw [if_pos hk, List.map_map]
    refine List.map_congr_left (fun p _ => ?_)
    simp only [Function.comp]
    by_cases hp : p.1 = kv.1
    · rw [if_pos hp, valsFor_cons, if_pos hp.symm, List.getLastD_cons]
    · rw [if_neg hp, valsFor_cons, if_neg (fun he => hp he.symm)]

theorem foldSet_idem {α : Type} (m ops : List (String × α)) :
    foldSet (foldSet m ops) ops = foldSet m ops := by
  rw [foldSet_eq_map (foldSet m ops) ops (fun q hq => opKey_mem_keysOf_foldSet m hq)]
  have : ∀ p ∈ foldSet m ops, (p.1, (valsFor ops p.1).getLastD p.2) = p := by
    intro p hp
    rcases mem_foldSet_lastVal m (by simpa using hp) with hnil | hlast
    · rw [hnil]; rfl
    · rw [hlast p.2]
  rw [List.map_congr_left this]
  simp

theorem foldSet_append {α : Type} (m ops1 ops2 : List (String × α)) :
    foldSet m (ops1 ++ ops2) = foldSet (foldSet m ops1) ops2 := by
  induction ops1 generalizing m with
  | nil => rfl
  | cons kv ops1 ih => rw [List.cons_append, foldSet_cons, foldSet_cons, ih]

theorem foldUpd_append (m ops1 ops2 : List (String × List String)) :
    foldUpd m (ops1 ++ ops2) = foldUpd (foldUpd m ops1) ops2 := by
  induction ops1 generalizing m with
  | nil => rfl
  | cons kv ops1 ih => rw [List.cons_append, foldUpd_cons, foldUpd_cons, ih]

/-! ## Characterization of processCmd and runCommands -/

theorem processCmd_valid {c : Cmd} (folders : List String)
    (platform architecture : String) (s : ProviderState) (h : validCmd c = true) :
    processCmd folders platform architecture s c =
      .ok (applyCmd folders platform architecture (cmdDir c) (cmdFile c) (cmdArgs c) s) := by
  rcases c with ⟨d, f, a⟩
  rcases hg : getArgs a with _ | args
  · cases d <;> cases f <;> simp_all [validCmd]
  · have ha : ∃ xs, a = JVal.arr xs := by
      cases a <;> simp_all [getArgs]
    obtain ⟨xs, rfl⟩ := ha
    cases d <;> cases f <;> simp_all [validCmd, processCmd, typeofJ, cmdDir, cmdFile, cmdArgs]

theorem validCmd_skipped_false {c : Cmd} (h : validCmd c = true) :
    skippedCmd c = false := by
  rcases c with ⟨d, f, a⟩
  rcases hg : getArgs a with _ | args
  · cases d <;> cases f <;> simp_all [validCmd]
  · have ha : ∃ xs, a = JVal.arr xs := by
      cases a <;> simp_all [getArgs]
    obtain ⟨xs, rfl⟩ := ha
    cases d <;> cases f <;> simp_all [validCmd, skippedCmd, typeofJ]

theorem processCmd_skipped {c : Cmd} (folders : List String)
    (platform architecture : String) (s : ProviderState) (h : skippedCmd c = true) :
    processCmd folders platform architecture s c = .ok s := by
  unfold skippedCmd at h
  rw [Bool.not_eq_true', decide_eq_false_iff_not] at h
  unfold processCmd
  rw [if_neg h]

theorem processCmd_ok_inv {c : Cmd} {s s' : ProviderState} (folders : List String)
    (platform architecture : String)
    (h : processCmd folders platform architecture s c = .ok s') :
    (validCmd c = true ∧
      s' = applyCmd folders platform architecture (cmdDir c) (cmdFile c) (cmdArgs c) s) ∨
    (skippedCmd c = true ∧ s' = s) := by
  unfold processCmd at h
  split at h
  · next hcond =>
    rcases c with ⟨d, f, a⟩
    rcases hg : getArgs a with _ | args
    · rw [hg] at h
      cases d <;> cases f <;> simp_all
    · rw [hg] at h
      cases d <;> cases f <;> simp_all [typeofJ] <;>
        · left
          split at h
          · next hlen =>
            refine ⟨by simp [validCmd, hg, hlen], ?_⟩
            simpa [cmdDir, cmdFile, cmdArgs, hg] using h.symm
          · cases h
  · next hcond =>
    right
    refine ⟨by simp [skippedCmd, hcond], ?_⟩
    cases h
    rfl

theorem runCommands_of_good (folders : List String) (platform architecture : String) :
    ∀ (db : List Cmd), goodDb db → ∀ (s : ProviderState),
      runCommands folders platform architecture db s =
        .ok (pureRun folders platform architecture db s) := by
  intro db
  induction db with
  | nil => intro _ s; rfl
  | cons c rest ih =>
    intro h s
    unfold runCommands pureRun
    by_cases hv : validCmd c = true
    · rw [processCmd_valid folders platform architecture s hv]
      unfold pureStep
      rw [if_pos hv]
      exact ih (fun e he => h e (List.mem_cons_of_mem c he)) _
    · rcases h c (List.mem_cons_self c rest) with hs | hs
      · rw [processCmd_skipped folders platform architecture s hs]
        unfold pureStep
        rw [if_neg hv]
        exact ih (fun e he => h e (List.mem_cons_of_mem c he)) _
      · exact absurd hs hv

theorem runCommands_ok_inv (folders : List String) (platform architecture : String) :
    ∀ (db : List Cmd) (s s1 : ProviderState),
      runCommands folders platform architecture db s = .ok s1 →
      goodDb db ∧ s1 = pureRun folders platform architecture db s := by
  intro db
  induction db with
  | nil =>
    intro s s1 h
    refine ⟨fun c hc => absurd hc (List.not_mem_nil c), ?_⟩
    unfold runCommands at h
    cases h
    rfl
  | cons c rest ih =>
    intro s s1 h
    unfold runCommands at h
    split at h
    · next s' hp =>
      obtain ⟨hgood, hs1⟩ := ih s' s1 h
      have hgoodc : goodDb (c :: rest) := by
        intro e he
        rcases List.mem_cons.mp he with rfl | he
        · rcases processCmd_ok_inv folders platform architecture hp with ⟨hv, _⟩ | ⟨hs, _⟩
          · exact Or.inr hv
          · exact Or.inl hs
        · exact hgood e he
      refine ⟨hgoodc, ?_⟩
      rcases processCmd_ok_inv folders platform architecture hp with ⟨hv, hs'⟩ | ⟨hs, hs'⟩
      · unfold pureRun pureStep
        rw [if_pos hv, ← hs']
        exact hs1
      · unfold pureRun pureStep
        cases hvc : validCmd c with
        | true => rw [validCmd_skipped_false hvc] at hs; cases hs
        | false =>
          rw [if_neg (by simp [hvc]), ← hs']
          exact hs1
    · cases h

/-! ## State projections of one run -/

theorem cmdOps_cons {α : Type} (f : String) (fs : List String) (u : String) (v : α) :
    cmdOps (f :: fs) u v =
      if attributed u f then (f, v) :: cmdOps fs u v else cmdOps fs u v := by
  unfold cmdOps
  rw [List.filter_cons]
  split
  · rfl
  · rfl

theorem folderLoop_components (u : String) (inc ca : List String) (cp std : String) :
    ∀ (folders : List String) (s : ProviderState),
      (folders.foldl (folderStep u inc ca cp std) s).sourceFileConfigurations =
          s.sourceFileConfigurations ∧
      (folders.foldl (folderStep u inc ca cp std) s).workspaceBrowsePaths =
          foldUpd s.workspaceBrowsePaths (cmdOps folders u inc) ∧
      (folders.foldl (folderStep u inc ca cp std) s).workspaceCompilerArgs =
          foldUpd s.workspaceCompilerArgs (cmdOps folders u ca) ∧
      (folders.foldl (folderStep u inc ca cp std) s).workspaceCompiler =
          foldSet s.workspaceCompiler (cmdOps folders u cp) ∧
      (folders.foldl (folderStep u inc ca cp std) s).workspaceStandard =
          foldSet s.workspaceStandard (cmdOps folders u std) := by
  intro folders
  induction folders with
  | nil => intro s; exact ⟨rfl, rfl, rfl, rfl, rfl⟩
  | cons f fs ih =>
    intro s
    rw [List.foldl_cons, cmdOps_cons, cmdOps_cons, cmdOps_cons, cmdOps_cons]
    by_cases ha : attributed u f
    · rw [if_pos ha, if_pos ha, if_pos ha, if_pos ha]
      obtain ⟨h1, h2, h3, h4, h5⟩ := ih (folderStep u inc ca cp std s f)
      unfold folderStep at h1 h2 h3 h4 h5 ⊢
      rw [if_pos ha] at h1 h2 h3 h4 h5 ⊢
      exact ⟨h1, by rw [h2, foldUpd_cons], by rw [h3, foldUpd_cons],
        by rw [h4, foldSet_cons], by rw [h5, foldSet_cons]⟩
    · rw [if_neg ha, if_neg ha, if_neg ha, if_neg ha]
      obtain ⟨h1, h2, h3, h4, h5⟩ := ih (folderStep u inc ca cp std s f)
      unfold folderStep at h1 h2 h3 h4 h5 ⊢
      rw [if_neg ha] at h1 h2 h3 h4 h5 ⊢
      exact ⟨h1, h2, h3, h4, h5⟩

theorem applyCmd_components (folders : List String)
    (platform architecture dir file_ : String) (args : List String) (s : ProviderState) :
    (applyCmd folders platform architecture dir file_ args s).sourceFileConfigurations =
        mapSet s.sourceFileConfigurations (cmdUri dir file_)
          (itemOf platform architecture dir file_ args) ∧
    (applyCmd folders platform architecture dir file_ args s).workspaceBrowsePaths =
        foldUpd s.workspaceBrowsePaths
          (cmdOps folders (cmdUri dir file_) (findIncludePaths dir args)) ∧
    (applyCmd folders platform architecture dir file_ args s).workspaceCompilerArgs =
        foldUpd s.workspaceCompilerArgs
          (cmdOps folders (cmdUri dir file_) (findCompilerArgs args)) ∧
    (applyCmd folders platform architecture dir file_ args s).workspaceCompiler =
        foldSet s.workspaceCompiler
          (cmdOps folders (cmdUri dir file_) (findCompilerPath args)) ∧
    (applyCmd folders platform architecture dir file_ args s).workspaceStandard =
        foldSet s.workspaceStandard
          (cmdOps folders (cmdUri dir file_) (findStandard args)) := by
  unfold applyCmd
  obtain ⟨h1, h2, h3, h4, h5⟩ :=
    folderLoop_components (cmdUri dir file_) (findIncludePaths dir args)
      (findCompilerArgs args) (findCompilerPath args) (findStandard args) folders
      { s with
        sourceFileConfigurations :=
          mapSet s.sourceFileConfigurations (cmdUri dir file_)
            (itemOf platform architecture dir file_ args) }
  exact ⟨h1, h2, h3, h4, h5⟩

theorem pureRun_components (folders : List String) (platform architecture : String) :
    ∀ (db : List Cmd) (s : ProviderState),
      (pureRun folders platform architecture db s).sourceFileConfigurations =
          foldSet s.sourceFileConfigurations (srcOpsOf platform architecture db) ∧
      (pureRun folders platform architecture db s).workspaceBrowsePaths =
          foldUpd s.workspaceBrowsePaths (browseOpsOf folders db) ∧
      (pureRun folders platform architecture db s).workspaceCompilerArgs =
          foldUpd s.workspaceCompilerArgs (cargOpsOf folders db) ∧
      (pureRun folders platform architecture db s).workspaceCompiler =
          foldSet s.workspaceCompiler (compOpsOf folders db) ∧
      (pureRun folders platform architecture db s).workspaceStandard =
          foldSet s.workspaceStandard (stdOpsOf folders db) := by
  intro db
  induction db with
  | nil => intro s; exact ⟨rfl, rfl, rfl, rfl, rfl⟩
  | cons c rest ih =>
    intro s
    unfold pureRun pureStep
    have eSrc : srcOpsOf platform architecture (c :: rest) =
        (if validCmd c then
          [(cmdUriOf c, itemOf platform architecture (cmdDir c) (cmdFile c) (cmdArgs c))]
         else []) ++ srcOpsOf platform architecture rest := rfl
    have eB : browseOpsOf folders (c :: rest) =
        (if validCmd c then
          cmdOps folders (cmdUriOf c) (findIncludePaths (cmdDir c) (cmdArgs c))
         else []) ++ browseOpsOf folders rest := rfl
    have eA : cargOpsOf folders (c :: rest) =
        (if validCmd c then cmdOps folders (cmdUriOf c) (findCompilerArgs (cmdArgs c))
         else []) ++ cargOpsOf folders rest := rfl
    have eC : compOpsOf folders (c :: rest) =
        (if validCmd c then cmdOps folders (cmdUriOf c) (findCompilerPath (cmdArgs c))
         else []) ++ compOpsOf folders rest := rfl
    have eS : stdOpsOf folders (c :: rest) =
        (if validCmd c then cmdOps folders (cmdUriOf c) (findStandard (cmdArgs c))
         else []) ++ stdOpsOf folders rest := rfl
    rw [eSrc, eB, eA, eC, eS]
    by_cases hv : validCmd c = true
    · rw [if_pos hv, if_pos hv, if_pos hv, if_pos hv, if_pos hv, if_pos hv]
      obtain ⟨h1, h2, h3, h4, h5⟩ :=
        ih (applyCmd folders platform architecture (cmdDir c) (cmdFile c) (cmdArgs c) s)
      obtain ⟨a1, a2, a3, a4, a5⟩ :=
        applyCmd_components folders platform architecture (cmdDir c) (cmdFile c) (cmdArgs c) s
      rw [foldSet_append, foldUpd_append, foldUpd_append, foldSet_append, foldSet_append]
      refine ⟨?_, ?_, ?_, ?_, ?_⟩
      · rw [h1, a1]; rfl
      · rw [h2, a2]; rfl
      · rw [h3, a3]; rfl
      · rw [h4, a4]; rfl
      · rw [h5, a5]; rfl
    · rw [if_neg hv, if_neg hv, if_neg hv, if_neg hv, if_neg hv, if_neg hv]
      obtain ⟨h1, h2, h3, h4, h5⟩ := ih s
      rw [List.nil_append, List.nil_append, List.nil_append, List.nil_append,
        List.nil_append]
      exact ⟨h1, h2, h3, h4, h5⟩

theorem providerState_eq {a b : ProviderState}
    (h1 : a.sourceFileConfigurations = b.sourceFileConfigurations)
    (h2 : a.workspaceBrowsePaths = b.workspaceBrowsePaths)
    (h3 : a.workspaceCompilerArgs = b.workspaceCompilerArgs)
    (h4 : a.workspaceCompiler = b.workspaceCompiler)
    (h5 : a.workspaceStandard = b.workspaceStandard) : a = b := by
  cases a; cases b; simp_all

/-! ## Nodup preservation -/

theorem foldPush_nodup {dst : List String} (vss : List (List String))
    (h : dst.Nodup) : (foldPush dst vss).Nodup := by
  induction vss generalizing dst with
  | nil => exact h
  | cons vs vss ih => exact ih (pushIfNotExist_nodup vs h)

theorem foldUpd_nodup {m : List (String × List String)}
    (ops : List (String × List String)) (h : ∀ p ∈ m, p.2.Nodup) :
    ∀ p ∈ foldUpd m ops, p.2.Nodup := by
  rw [foldUpd_eq_map]
  intro p hp
  obtain ⟨q, hq, rfl⟩ := List.mem_map.mp hp
  exact foldPush_nodup _ (h q hq)

theorem mem_mapSet_values {α : Type} {p : String × α} {m : List (String × α)}
    {k : String} {v : α} (h : p ∈ mapSet m k v) : p ∈ m ∨ p.2 = v := by
  unfold mapSet at h
  split at h
  · obtain ⟨q, hq, hqe⟩ := List.mem_map.mp h
    by_cases hk : q.1 = k
    · rw [if_pos hk] at hqe
      right
      rw [← hqe]
    · rw [if_neg hk] at hqe
      left
      exact hqe ▸ hq
  · rcases List.mem_append.mp h with h | h
    · exact Or.inl h
    · right
      rw [List.mem_singleton.mp h]

theorem newProvider_agg_empty (folders : List String) :
    ∀ (m : List (String × List String)), (∀ p ∈ m, p.2 = []) →
      ∀ p ∈ folders.foldl (fun m f => mapSet m f []) m, p.2 = [] := by
  induction folders with
  | nil => intro m hm p hp; exact hm p hp
  | cons f fs ih =>
    intro m hm p hp
    refine ih (mapSet m f []) (fun q hq => ?_) p hp
    rcases mem_mapSet_values hq with hq | hq
    · exact hm q hq
    · exact hq

/-! ## String-append cancellation for the IntelliSense-mode key -/

theorem string_data_append (s t : String) : (s ++ t).data = s.data ++ t.data := by
  cases s; cases t; rfl

theorem string_eq_of_data {s t : String} (h : s.data = t.data) : s = t := by
  cases s; cases t; exact congrArg String.mk h

theorem compArch_data (c p : String) : (c ++ "-" ++ p).data = c.data ++ ('-' :: p.data) := by
  rw [string_data_append, string_data_append, List.append_assoc]
  rfl

theorem compArch_ne_key (c p k q : String) (s : List Char)
    (hq : k.data = q.data ++ s) (hlen : ('-' :: p.data).length = s.length)
    (hne : ('-' :: p.data) ≠ s) : c ++ "-" ++ p ≠ k := by
  intro h
  have hd : c.data ++ ('-' :: p.data) = q.data ++ s := by
    rw [← compArch_data, h, hq]
  exact hne (List.append_inj' hd hlen).2

theorem compArch_eq_family (c p k q : String)
    (hq : k.data = q.data ++ ('-' :: p.data)) (h : c ++ "-" ++ p = k) : c = q := by
  have hd : c.data ++ ('-' :: p.data) = q.data ++ ('-' :: p.data) := by
    rw [← compArch_data, h, hq]
  exact string_eq_of_data (List.append_inj' hd rfl).1

theorem lookupMode_not_family {c p : String} (hp : p = "x86" ∨ p = "x64")
    (h1 : c ≠ "msvc") (h2 : c ≠ "gcc") (h3 : c ≠ "clang") :
    lookupMode (c ++ "-" ++ p) = "msvc-x86" := by
  rcases hp with rfl | rfl
  · unfold lookupMode
    rw [if_neg (fun he => h1 (compArch_eq_family c "x86" "msvc-x86" "msvc" (by decide) he)),
      if_neg (compArch_ne_key c "x86" "msvc-x64" "msvc" (String.data "-x64") (by decide) (by decide) (by decide)),
      if_neg (compArch_ne_key c "x86" "msvc-arm" "msvc" (String.data "-arm") (by decide) (by decide) (by decide)),
      if_neg (compArch_ne_key c "x86" "msvc-arm64" "msvc-a" (String.data "rm64") (by decide) (by decide) (by decide)),
      if_neg (fun he => h2 (compArch_eq_family c "x86" "gcc-x86" "gcc" (by decide) he)),
      if_neg (compArch_ne_key c "x86" "gcc-x64" "gcc" (String.data "-x64") (by decide) (by decide) (by decide)),
      if_neg (compArch_ne_key c "x86" "gcc-arm" "gcc" (String.data "-arm") (by decide) (by decide) (by decide)),
      if_neg (compArch_ne_key c "x86" "gcc-arm64" "gcc-a" (String.data "rm64") (by decide) (by decide) (by decide)),
      if_neg (fun he => h3 (compArch_eq_family c "x86" "clang-x86" "clang" (by decide) he)),
      if_neg (compArch_ne_key c "x86" "clang-x64" "clang" (String.data "-x64") (by decide) (by decide) (by decide)),
      if_neg (compArch_ne_key c "x86" "clang-arm" "clang" (String.data "-arm") (by decide) (by decide) (by decide)),
      if_neg (compArch_ne_key c "x86" "clang-arm64" "clang-a" (String.data "rm64") (by decide) (by decide) (by decide))]
  · unfold lookupMode
    rw [if_neg (compArch_ne_key c "x64" "msvc-x86" "msvc" (String.data "-x86") (by decide) (by decide) (by decide)),
      if_neg (fun he => h1 (compArch_eq_family c "x64" "msvc-x64" "msvc" (by decide) he)),
      if_neg (compArch_ne_key c "x64" "msvc-arm" "msvc" (String.data "-arm") (by decide) (by decide) (by decide)),
      if_neg (compArch_ne_key c "x64" "msvc-arm64" "msvc-a" (String.data "rm64") (by decide) (by decide) (by decide)),
      if_neg (compArch_ne_key c "x64" "gcc-x86" "gcc" (String.data "-x86") (by decide) (by decide) (by decide)),
      if_neg (fun he => h2 (compArch_eq_family c "x64" "gcc-x64" "gcc" (by decide) he)),
      if_neg (compArch_ne_key c "x64" "gcc-arm" "gcc" (String.data "-arm") (by decide) (by decide) (by decide)),
      if_neg (compArch_ne_key c "x64" "gcc-arm64" "gcc-a" (String.data "rm64") (by decide) (by decide) (by decide)),
      if_neg (compArch_ne_key c "x64" "clang-x86" "clang" (String.data "-x86") (by decide) (by decide) (by decide)),
      if_neg (fun he => h3 (compArch_eq_family c "x64" "clang-x64" "clang" (by decide) he)),
      if_neg (compArch_ne_key c "x64" "clang-arm" "clang" (String.data "-arm") (by decide) (by decide) (by decide)),
      if_neg (compArch_ne_key c "x64" "clang-arm64" "clang-a" (String.data "rm64") (by decide) (by decide) (by decide))]

/-! ## The standard-token switch -/

theorem resolveStd_mem {std : String} (h : std ∈ recognizedStandards) :
    resolveStd std = std := by
  simp only [recognizedStandards, List.mem_cons, List.not_mem_nil, or_false] at h
  rcases h with rfl | rfl | rfl | rfl | rfl | rfl | rfl | rfl | rfl | rfl | rfl | rfl |
    rfl | rfl | rfl | rfl | rfl | rfl | rfl | rfl <;> rfl

theorem resolveStd_not_mem {std : String} (h : std ∉ recognizedStandards) :
    resolveStd std = "c++20" := by
  simp only [recognizedStandards, List.mem_cons, List.not_mem_nil, or_false, not_or] at h
  obtain ⟨n1, n2, n3, n4, n5, n6, n7, n8, n9, n10, n11, n12, n13, n14, n15, n16, n17,
    n18, n19, n20⟩ := h
  unfold resolveStd
  rw [if_neg n1, if_neg n2, if_neg n3, if_neg n4, if_neg n5, if_neg n6, if_neg n7,
    if_neg n8, if_neg n9, if_neg n10, if_neg n11, if_neg n12, if_neg n13, if_neg n14,
    if_neg n15, if_neg n16, if_neg n17, if_neg n18, if_neg n19, if_neg n20]

theorem findIncludePaths_eq_spec (dir : String) (args : List String) :
    findIncludePaths dir args = specIncludePathsOf dir args := by
  unfold findIncludePaths specIncludePathsOf flavorMarker
  by_cases h : isMSVC args
  · rw [if_pos h, if_pos h, (by decide : ("/" : String) ++ "I" = "/I")]
  · rw [if_neg h, if_neg h, (by decide : ("-" : String) ++ "I" = "-I")]

/-! ## The claims -/

/-- C1: Refuted on the code (code bug).  The rebuild entry point empties
only the per-file map: the four `forEach` calls meant to clear the per-folder
aggregates only reassign their callback parameter, so the aggregates survive.
Rebuilding with an empty database after a rebuild from `wDb` keeps `/w`'s
browse paths, compiler args, compiler and standard, while the identical
rebuild on a fresh provider leaves them empty — the index after rebuild is
not a function of the database, architecture and folders alone. -/
theorem updateCompileCommands_retains_aggregates :
    ((updateCompileCommands ["/w"] "linux" "x64" wDb (newProvider ["/w"])).bind
        (fun s1 => updateCompileCommands ["/w"] "linux" "x64" [] s1)) =
      .ok { sourceFileConfigurations := []
            workspaceBrowsePaths := [("/w", ["/inc"])]
            workspaceCompilerArgs := [("/w", ["-O2"])]
            workspaceCompiler := [("/w", "/usr/bin/gcc")]
            workspaceStandard := [("/w", "c11")] } ∧
    updateCompileCommands ["/w"] "linux" "x64" [] (newProvider ["/w"]) =
      .ok (newProvider ["/w"]) := by
  constructor
  · decide
  · decide

/-- C2: Refuted on the code (code bug).  `provideConfigurations` declares
`items` without an initializer, so a query containing any indexed path throws
a `TypeError` from `items.push`, and a query with no indexed path resolves
`undefined` rather than a list. -/
theorem provideConfigurations_throws :
    (updateCompileCommands ["/w"] "linux" "x64" wDb (newProvider ["/w"])).bind
        (fun s1 => provideConfigurations s1 ["/w/a.cpp"]) =
      .thrown "TypeError: items is undefined" ∧
    (updateCompileCommands ["/w"] "linux" "x64" wDb (newProvider ["/w"])).bind
        (fun s1 => provideConfigurations s1 ["/other.cpp"]) = .ok none := by
  constructor
  · decide
  · decide

/-- C3: Refuted on the code (code bug).  An entry whose `arguments` is
`null` has the wrong type, yet passes the validation because
`typeof null` is `"object"`; the subsequent `args[1]` access then throws,
aborting the whole rebuild instead of skipping the entry.  An entry caught
by the validation (here a numeric `directory`) is skipped without effect. -/
theorem updateCompileCommands_throws_on_malformed :
    updateCompileCommands ["/w"] "linux" "x64"
        [{ directory := .str "/p", file := .str "/p/a.cpp", arguments := JVal.null }]
        (newProvider ["/w"]) = .thrown "TypeError" ∧
    typeofJ JVal.null = "object" ∧
    updateCompileCommands ["/w"] "linux" "x64"
        [{ directory := .num 5, file := .str "/x", arguments := .arr [] }]
        (newProvider ["/w"]) = .ok (newProvider ["/w"]) := by
  refine ⟨?_, ?_, ?_⟩
  · decide
  · decide
  · decide

/-- C4: Running the rebuild entry point twice in succession with the same
database, platform, architecture and workspace folders leaves the whole
provider state (per-file map and all per-folder aggregates) exactly as after
one run. -/
theorem updateCompileCommands_idempotent (folders : List String)
    (platform architecture : String) (db : List Cmd) (s s1 : ProviderState)
    (h : updateCompileCommands folders platform architecture db s = .ok s1) :
    updateCompileCommands folders platform architecture db s1 = .ok s1 := by
  unfold updateCompileCommands at h ⊢
  obtain ⟨hgood, hs1⟩ := runCommands_ok_inv folders platform architecture db _ s1 h
  rw [runCommands_of_good folders platform architecture db hgood]
  refine congrArg JSResult.ok ?_
  obtain ⟨p1, p2, p3, p4, p5⟩ := pureRun_components folders platform architecture db
    { s1 with sourceFileConfigurations := [] }
  obtain ⟨q1, q2, q3, q4, q5⟩ := pureRun_components folders platform architecture db
    { s with sourceFileConfigurations := [] }
  have hb : s1.workspaceBrowsePaths =
      foldUpd s.workspaceBrowsePaths (browseOpsOf folders db) := by
    rw [hs1]; exact q2
  have hc : s1.workspaceCompilerArgs =
      foldUpd s.workspaceCompilerArgs (cargOpsOf folders db) := by
    rw [hs1]; exact q3
  have hd : s1.workspaceCompiler =
      foldSet s.workspaceCompiler (compOpsOf folders db) := by
    rw [hs1]; exact q4
  have he : s1.workspaceStandard =
      foldSet s.workspaceStandard (stdOpsOf folders db) := by
    rw [hs1]; exact q5
  refine providerState_eq ?_ ?_ ?_ ?_ ?_
  · calc (pureRun folders platform architecture db
          { s1 with sourceFileConfigurations := [] }).sourceFileConfigurations
        = foldSet [] (srcOpsOf platform architecture db) := p1
    _ = (pureRun folders platform architecture db
          { s with sourceFileConfigurations := [] }).sourceFileConfigurations := q1.symm
    _ = s1.sourceFileConfigurations := by rw [hs1]
  · calc (pureRun folders platform architecture db
          { s1 with sourceFileConfigurations := [] }).workspaceBrowsePaths
        = foldUpd s1.workspaceBrowsePaths (browseOpsOf folders db) := p2
    _ = foldUpd (foldUpd s.workspaceBrowsePaths (browseOpsOf folders db))
          (browseOpsOf folders db) := by rw [hb]
    _ = foldUpd s.workspaceBrowsePaths (browseOpsOf folders db) := foldUpd_idem _ _
    _ = s1.workspaceBrowsePaths := hb.symm
  · calc (pureRun folders platform architecture db
          { s1 with sourceFileConfigurations := [] }).workspaceCompilerArgs
        = foldUpd s1.workspaceCompilerArgs (cargOpsOf folders db) := p3
    _ = foldUpd (foldUpd s.workspaceCompilerArgs (cargOpsOf folders db))
          (cargOpsOf folders db) := by rw [hc]
    _ = foldUpd s.workspaceCompilerArgs (cargOpsOf folders db) := foldUpd_idem _ _
    _ = s1.workspaceCompilerArgs := hc.symm
  · calc (pureRun folders platform architecture db
          { s1 with sourceFileConfigurations := [] }).workspaceCompiler
        = foldSet s1.workspaceCompiler (compOpsOf folders db) := p4
    _ = foldSet (foldSet s.workspaceCompiler (compOpsOf folders db))
          (compOpsOf folders db) := by rw [hd]
    _ = foldSet s.workspaceCompiler (compOpsOf folders db) := foldSet_idem _ _
    _ = s1.workspaceCompiler := hd.symm
  · calc (pureRun folders platform architecture db
          { s1 with sourceFileConfigurations := [] }).workspaceStandard
        = foldSet s1.workspaceStandard (stdOpsOf folders db) := p5
    _ = foldSet (foldSet s.workspaceStandard (stdOpsOf folders db))
          (stdOpsOf folders db) := by rw [he]
    _ = foldSet s.workspaceStandard (stdOpsOf folders db) := foldSet_idem _ _
    _ = s1.workspaceStandard := he.symm

theorem updateCompileCommands_idempotent_witness :
    updateCompileCommands ["/w"] "linux" "x64" wDb wState = .ok wState :=
  updateCompileCommands_idempotent ["/w"] "linux" "x64" wDb (newProvider ["/w"]) wState
    (by decide)

/-- C5: When the first argument carrying the flavor's 5-character standard
marker has a token (its substring from index 5) in the recognized 20-element
set, `findStandard` returns that token unchanged; for any other token, or
when no argument carries the marker, it returns `c++20`. -/
theorem findStandard_resolution (args : List String) :
    (∀ a, args.find? (fun arg => jsStartsWith arg (standardMarker args)) = some a →
      (jsSubstring a 5 ∈ recognizedStandards → findStandard args = jsSubstring a 5) ∧
      (jsSubstring a 5 ∉ recognizedStandards → findStandard args = "c++20")) ∧
    (args.find? (fun arg => jsStartsWith arg (standardMarker args)) = none →
      findStandard args = "c++20") := by
  constructor
  · intro a ha
    constructor
    · intro hm
      unfold findStandard
      rw [ha]
      exact resolveStd_mem hm
    · intro hm
      unfold findStandard
      rw [ha]
      exact resolveStd_not_mem hm
  · intro hn
    unfold findStandard
    rw [hn]

theorem findStandard_resolution_witness :
    findStandard ["sh", "cc", "-std=c++17"] = "c++17" ∧
    findStandard ["sh", "cc", "-std=c++23"] = "c++20" ∧
    findStandard ["sh", "cc", "-O2"] = "c++20" :=
  ⟨(((findStandard_resolution ["sh", "cc", "-std=c++17"]).1 "-std=c++17"
      (by decide)).1 (by decide)).trans (by decide),
   ((findStandard_resolution ["sh", "cc", "-std=c++23"]).1 "-std=c++23"
      (by decide)).2 (by decide),
   (findStandard_resolution ["sh", "cc", "-O2"]).2 (by decide)⟩

/-- C6: Counterexample to the claim as stated.  For the scenario entry,
the stored include path is `/inc`, not `/p/../inc`: `path.join` normalizes
the `..` segment when resolving `../inc` against `/p`. -/
theorem findIncludePaths_scenario_counterexample :
    (updateCompileCommands ["/p"] "linux" "x64" [scenarioEntry] (newProvider ["/p"])).bind
        (fun s => .ok ((mapFind s.sourceFileConfigurations "/p/a.cpp").map
          (fun it => it.configuration.includePath))) = .ok (some ["/inc"]) ∧
    (["/inc"] : List String) ≠ ["/p/../inc"] := by
  constructor
  · decide
  · decide

/-- C6 (amended): For the scenario entry the stored configuration has
includePath `["/inc"]` (the `..` segment is normalized by `path.join`),
defines `["FOO"]`, compilerPath `/usr/bin/g++`, compilerArgs `["-Wall"]` and
standard `c++17`; in general every argument starting with the flavor marker
followed by `I` contributes its substring from index 2, joined onto the
entry's directory when not absolute, order preserved and no deduplication. -/
theorem findIncludePaths_scenario_amended :
    (updateCompileCommands ["/p"] "linux" "x64" [scenarioEntry] (newProvider ["/p"])).bind
        (fun s => .ok (mapFind s.sourceFileConfigurations "/p/a.cpp")) =
      .ok (some
        { uri := "/p/a.cpp"
          configuration :=
            { includePath := ["/inc"], defines := ["FOO"], compilerPath := "/usr/bin/g++"
              compilerArgs := ["-Wall"], standard := "c++17"
              intelliSenseMode := "msvc-x86" } }) ∧
    ∀ dir args, findIncludePaths dir args = specIncludePathsOf dir args :=
  ⟨by decide, findIncludePaths_eq_spec⟩

/-- C7: The pass-through compiler arguments are exactly the arguments that
start with the flavor marker (`/` when the lowercased base name of
`arguments[1]` is `cl`, `-` otherwise) minus those starting with marker+`I`,
marker+`D`, marker+`o` or marker+`std`, in input order; the `std` exclusion
is a plain prefix test, dropping `-stdlib=...` and `/stdlib` alike. -/
theorem findCompilerArgs_characterization :
    (∀ args, findCompilerArgs args = args.filter (specPassThroughKeep (flavorMarker args))) ∧
    findCompilerArgs ["cc", "cl", "/std:c++17", "/stdlib", "/W4"] = ["/W4"] ∧
    findCompilerArgs ["sh", "g++", "-stdlib=libc++", "-std=c++17", "-Wall"] = ["-Wall"] := by
  refine ⟨fun args => ?_, by decide, by decide⟩
  unfold findCompilerArgs specPassThroughKeep flavorMarker
  rfl

/-- C8: `findIntelliSenseMode` canonicalizes every architecture other than
exactly `x86` to `x64` before the table lookup, and every concatenated
`(compiler, canonical architecture)` key outside the 12-entry table yields
the default `msvc-x86`. -/
theorem findIntelliSenseMode_canonicalization (args : List String)
    (platform architecture : String) :
    (architecture ≠ "x86" →
      findIntelliSenseMode args platform architecture =
        findIntelliSenseMode args platform "x64") ∧
    (findCompiler args ++ "-" ++ (if architecture = "x86" then "x86" else "x64") ∉
        intelliSenseTable →
      findIntelliSenseMode args platform architecture = "msvc-x86") := by
  constructor
  · intro h
    unfold findIntelliSenseMode
    rw [if_neg h, if_neg (by decide : ¬("x64" : String) = "x86")]
  · intro h
    simp only [intelliSenseTable, List.mem_cons, List.not_mem_nil, or_false, not_or] at h
    obtain ⟨h1, h2, h3, h4, h5, h6, h7, h8, h9, h10, h11, h12⟩ := h
    unfold findIntelliSenseMode lookupMode
    rw [if_neg h1, if_neg h2, if_neg h3, if_neg h4, if_neg h5, if_neg h6, if_neg h7,
      if_neg h8, if_neg h9, if_neg h10, if_neg h11, if_neg h12]

theorem findIntelliSenseMode_canonicalization_witness :
    findIntelliSenseMode ["sh", "gcc"] "linux" "arm64" =
      findIntelliSenseMode ["sh", "gcc"] "linux" "x64" ∧
    findIntelliSenseMode ["sh", "weird"] "linux" "arm64" = "msvc-x86" :=
  ⟨(findIntelliSenseMode_canonicalization ["sh", "gcc"] "linux" "arm64").1 (by decide),
   (findIntelliSenseMode_canonicalization ["sh", "weird"] "linux" "arm64").2 (by decide)⟩

/-- C9: The per-folder browse-path and compiler-argument aggregates never
hold two equal strings: they are empty at construction, `pushIfNotExist`
appends only elements not already present (removing and reordering nothing),
and every completed rebuild preserves the freedom from duplicates. -/
theorem aggregates_nodup_invariant :
    (∀ folders, aggregatesNodup (newProvider folders)) ∧
    (∀ folders platform architecture db s s1,
      aggregatesNodup s →
      updateCompileCommands folders platform architecture db s = .ok s1 →
      aggregatesNodup s1) ∧
    (∀ dst vs, dst.Nodup → (pushIfNotExist dst vs).Nodup) ∧
    (∀ dst vs, ∃ t, pushIfNotExist dst vs = dst ++ t ∧ ∀ a ∈ t, a ∉ dst) := by
  refine ⟨?_, ?_, ?_, ?_⟩
  · intro folders
    constructor
    · intro p hp
      rw [newProvider_agg_empty folders [] (by simp) p hp]
      exact List.nodup_nil
    · intro p hp
      rw [newProvider_agg_empty folders [] (by simp) p hp]
      exact List.nodup_nil
  · intro folders platform architecture db s s1 hagg h
    unfold updateCompileCommands at h
    obtain ⟨hgood, hs1⟩ := runCommands_ok_inv folders platform architecture db _ s1 h
    obtain ⟨p1, p2, p3, p4, p5⟩ := pureRun_components folders platform architecture db
      { s with sourceFileConfigurations := [] }
    subst hs1
    constructor
    · rw [p2]
      exact foldUpd_nodup _ hagg.1
    · rw [p3]
      exact foldUpd_nodup _ hagg.2
  · exact fun dst vs h => pushIfNotExist_nodup vs h
  · exact fun dst vs => pushIfNotExist_append_form dst vs

theorem aggregates_nodup_invariant_witness :
    aggregatesNodup (newProvider ["/w", "/v"]) ∧
    (pushIfNotExist ["a"] ["a", "b"]).Nodup ∧
    aggregatesNodup wState :=
  ⟨aggregates_nodup_invariant.1 ["/w", "/v"],
   aggregates_nodup_invariant.2.2.1 ["a"] ["a", "b"] (by decide),
   aggregates_nodup_invariant.2.1 ["/w"] "linux" "x64" wDb (newProvider ["/w"]) wState
     (by unfold aggregatesNodup; exact ⟨by decide, by decide⟩) (by decide)⟩

/-- C10: For an MSVC-flavored entry the lookup key is built from the raw
lowercased base name `cl`, which matches no table row, so
`findIntelliSenseMode` returns `msvc-x86` for every architecture and
platform; conversely a non-default mode is only reachable when the lowercased
base name is exactly `msvc`, `gcc` or `clang`. -/
theorem findIntelliSenseMode_cl_default (args : List String)
    (platform architecture : String) :
    (findCompiler args = "cl" →
      findIntelliSenseMode args platform architecture = "msvc-x86") ∧
    (findIntelliSenseMode args platform architecture ≠ "msvc-x86" →
      findCompiler args ∈ (["msvc", "gcc", "clang"] : List String)) := by
  constructor
  · intro h
    unfold findIntelliSenseMode
    rw [h]
    by_cases ha : architecture = "x86"
    · rw [if_pos ha]
      decide
    · rw [if_neg ha]
      decide
  · intro hne
    by_contra hmem
    simp only [List.mem_cons, List.not_mem_nil, or_false, not_or] at hmem
    obtain ⟨h1, h2, h3⟩ := hmem
    refine hne ?_
    unfold findIntelliSenseMode
    exact lookupMode_not_family
      (by by_cases h : architecture = "x86" <;> simp [h]) h1 h2 h3

theorem findIntelliSenseMode_cl_default_witness :
    findIntelliSenseMode ["sh", "/opt/msvc/cl"] "win32" "arm64" = "msvc-x86" ∧
    findCompiler ["sh", "/usr/bin/gcc"] ∈ (["msvc", "gcc", "clang"] : List String) :=
  ⟨(findIntelliSenseMode_cl_default ["sh", "/opt/msvc/cl"] "win32" "arm64").1 (by decide),
   (findIntelliSenseMode_cl_default ["sh", "/usr/bin/gcc"] "linux" "x64").2 (by decide)⟩

end XMakeCpp
